import Mathlib

/-!
# Verification of the YT_Analytics collection-and-aggregation pipeline

Shallow embedding of `src/main.py`: the playlist paginator
(`get_video_ids_from_playlist`), the channel-map parser
(`parse_channel_map`), the batched statistics fetcher
(`fetch_all_video_stats`) and the row-building phase of `main`.

Remote calls are modelled by oracles: a discovery oracle maps a playlist id
to the finite trace of page responses the paginator would observe, and a
statistics oracle maps a requested chunk of video ids to `none` (the request
raised) or `some items` (the parsed response).  Timestamps are integers,
view counts are naturals, and Python dictionaries whose values are only ever
read back with a zero default are modelled as total functions with value `0`
outside their key set.  The concurrent fan-in of `main` is modelled in task
submission order; order-independence of the downstream aggregation is proved
separately (claim C8).
-/

set_option maxHeartbeats 1000000

namespace YTA

/-- A playlist item as seen by the paginator: the video id and its publish
timestamp (`snippet.publishedAt`, modelled as an integer timeline). -/
structure PlaylistItem where
  videoId : String
  publishedAt : Int
deriving DecidableEq, Repr

/-- One page response of the playlist-items endpoint: either a successful
page (its items plus whether a `nextPageToken` was present) or a raised
error carrying its message string. -/
inductive PageResult where
  | ok (items : List PlaylistItem) (hasNextPage : Bool)
  | err (msg : String)
deriving DecidableEq, Repr

/-- `p.isOk` iff the page request did not raise. -/
def PageResult.isOk : PageResult → Bool
  | .ok _ _ => true
  | .err _ => false

/-- Substring test on character lists: does `p` occur contiguously in `l`?
Models Python's `"pat" in s`. -/
def hasSubChars (p : List Char) : List Char → Bool
  | [] => p.isEmpty
  | c :: rest => p.isPrefixOf (c :: rest) || hasSubChars p rest

/-- `containsSubstr s pat` models Python's `pat in s` on strings. -/
def containsSubstr (s pat : String) : Bool :=
  hasSubChars pat.data s.data

/-- The ids of one page that survive the date filter, in page order:
`published_at >= start_date` keeps the item (main.py lines 30-34). -/
def pageIds (cutoff : Int) (items : List PlaylistItem) : List String :=
  (items.filter (fun it => cutoff ≤ it.publishedAt)).map (·.videoId)

/-- The pagination loop of `get_video_ids_from_playlist` (main.py lines
21-43), with `acc` the `video_ids` accumulator.  A raised error whose
message contains `"playlistNotFound"` breaks the loop, returning what was
collected so far; any other error is re-raised (`Except.error`).  A
successful page appends its filtered ids and continues exactly when a
continuation token was present. -/
def collectGo (cutoff : Int) : List PageResult → List String → Except String (List String)
  | [], acc => .ok acc
  | .err msg :: _, acc =>
      if containsSubstr msg "playlistNotFound" then .ok acc else .error msg
  | .ok items tok :: rest, acc =>
      let acc' := acc ++ pageIds cutoff items
      if tok then collectGo cutoff rest acc' else .ok acc'

/-- `get_video_ids_from_playlist` (main.py lines 17-44): run the pagination
loop over the trace of pages the remote source produces, starting from an
empty accumulator. -/
def get_video_ids_from_playlist (pages : List PageResult) (cutoff : Int) :
    Except String (List String) :=
  collectGo cutoff pages []

/-- The successful pages the loop actually processes: every page up to and
including the first one without a continuation token (an error page ends
the visited prefix). -/
def visitedItems : List PageResult → List (List PlaylistItem)
  | [] => []
  | .err _ :: _ => []
  | .ok items true :: rest => items :: visitedItems rest
  | .ok items false :: _ => [items]

/-- One entry of `video_id_details`: a discovered video id tagged with its
channel name and video type (main.py lines 224-229). -/
structure Detail where
  id : String
  channel_name : String
  video_type : String
deriving DecidableEq, Repr

/-- The aggregation key `(channel_name, video_type)`. -/
abbrev Key := String × String

/-- `detailKey d` is the key a detail record aggregates under. -/
def detailKey (d : Detail) : Key := (d.channel_name, d.video_type)

/-- One item of a statistics batch response: the video id and the optional
`statistics.viewCount` field (`none` models a statistics object lacking the
field, read back with `.get('viewCount', 0)`). -/
structure StatsItem where
  id : String
  viewCount : Option Nat
deriving DecidableEq, Repr

/-- An aggregate entry `{'view_count': _, 'video_count': _}`. -/
structure Entry where
  view_count : Nat
  video_count : Nat
deriving DecidableEq, Repr

/-- The statistics oracle: a chunk request either raises (`none`) or
returns the parsed response items. -/
abbrev StatsApi := List String → Option (List StatsItem)

/-- Fuel-indexed chunking loop; the fuel only bounds the recursion depth
and is irrelevant once it is at least the list length. -/
def chunksOfGo (n : Nat) : Nat → List α → List (List α)
  | _, [] => []
  | 0, _ :: _ => []
  | fuel + 1, x :: xs => (x :: xs).take n :: chunksOfGo n fuel (xs.drop (n - 1))

/-- Python slicing `l[i:i+n]` stepped by `n`: consecutive chunks of size
`n`, the last possibly shorter (main.py lines 110-111). -/
def chunksOf (n : Nat) (l : List α) : List (List α) :=
  chunksOfGo n l.length l

/-- Pointwise increment of a key-indexed counter, modelling
`d[key] = d.get(key, 0) + v`. -/
def bump (f : Key → Nat) (k : Key) (v : Nat) : Key → Nat :=
  fun k' => if k' = k then f k' + v else f k'

/-- Processing one response item in the view-sum loop (main.py lines
122-137): resolve the first detail record whose id matches (`next(...)`),
and add the item's view count (missing field counts as 0) to that detail's
key; an item matching no detail contributes nothing. -/
def addItemViews (dts : List Detail) (s : Key → Nat) (it : StatsItem) : Key → Nat :=
  match dts.find? (fun d => d.id == it.id) with
  | some d => bump s (detailKey d) (it.viewCount.getD 0)
  | none => s

/-- The video-count loop over ALL detail records (main.py lines 140-145):
every detail whose id occurs in this chunk's processed-id set bumps its own
key's count by one. -/
def addChunkCounts (processed : List String) (dts : List Detail) (c : Key → Nat) : Key → Nat :=
  dts.foldl (fun c d => if processed.contains d.id then bump c (detailKey d) 1 else c) c

/-- The running accumulators of `fetch_all_video_stats`: `stats` is the
view-sum dictionary, `counts` the auxiliary video-count dictionary. -/
structure Acc where
  stats : Key → Nat
  counts : Key → Nat

/-- Processing one chunk (main.py lines 112-149): a raised request leaves
both accumulators untouched (the chunk is skipped); a successful response
first folds the view-sum loop over its items, then runs the count loop with
`processed` = the ids present in the response. -/
def stepChunk (api : StatsApi) (dts : List Detail) (acc : Acc) (chunk : List String) : Acc :=
  match api chunk with
  | none => acc
  | some items =>
      { stats := items.foldl (addItemViews dts) acc.stats,
        counts := addChunkCounts (items.map (·.id)) dts acc.counts }

/-- The chunk loop, starting from empty dictionaries. -/
def runChunks (api : StatsApi) (dts : List Detail) (chunks : List (List String)) : Acc :=
  chunks.foldl (stepChunk api dts) ⟨fun _ => 0, fun _ => 0⟩

/-- The chunk requests `fetch_all_video_stats` issues: the input's video
ids, in order, sliced into chunks of 50 (one request per chunk, no retry). -/
def statsRequests (dts : List Detail) : List (List String) :=
  chunksOf 50 (dts.map (·.id))

/-- `fetch_all_video_stats` (main.py lines 86-159) as a total mapping from
keys to aggregate entries: empty input returns the empty dictionary; the
final combine loop (lines 152-157) pairs each key's view sum with its video
count, absent keys reading as `{0, 0}` exactly as `all_stats.get(key,
{'view_count': 0, 'video_count': 0})` does downstream. -/
def fetch_all_video_stats (api : StatsApi) (dts : List Detail) : Key → Entry :=
  if dts.isEmpty then fun _ => ⟨0, 0⟩
  else fun k =>
    let acc := runChunks api dts (statsRequests dts)
    ⟨acc.stats k, acc.counts k⟩

/-- Python's `str.split(sep)` for a one-character separator, over the
character list; the result is never empty and splitting the empty string
gives `[[]]`, as in Python. -/
def splitOnChar (sep : Char) : List Char → List (List Char)
  | [] => [[]]
  | c :: rest =>
      match splitOnChar sep rest with
      | [] => [[]]
      | cur :: others =>
          if c == sep then [] :: cur :: others
          else (c :: cur) :: others

/-- `str.split(sep)` lifted back to strings. -/
def strSplitOn (s : String) (sep : Char) : List String :=
  (splitOnChar sep s.data).map String.mk

/-- Python's `str.strip()`: drop leading and trailing whitespace. -/
def trimChars (l : List Char) : List Char :=
  ((l.dropWhile Char.isWhitespace).reverse.dropWhile Char.isWhitespace).reverse

/-- `str.strip()` on strings. -/
def strTrim (s : String) : String := ⟨trimChars s.data⟩

/-- Dictionary assignment `channel_map[name] = channel_id` on an
insertion-ordered association list: an existing key keeps its position and
gets the new value, a fresh key is appended. -/
def upsert (m : List (String × String)) (k v : String) : List (String × String) :=
  if m.any (fun p => p.1 == k) then
    m.map (fun p => if p.1 == k then (k, v) else p)
  else m ++ [(k, v)]

/-- `parse_channel_map` (main.py lines 71-84): split on `','`, keep the
entries splitting on `':'` into exactly two parts, strip both parts, and
insert into the map. -/
def parse_channel_map (map_string : String) : List (String × String) :=
  if map_string = "" then []
  else
    (strSplitOn map_string ',').foldl
      (fun m entry =>
        match strSplitOn entry ':' with
        | [a, b] => upsert m (strTrim a) (strTrim b)
        | _ => m)
      []

/-- The discovery task list of `main` (lines 178-197): channels whose id
does not start with `"UC"` are skipped; each remaining channel contributes
one `(playlist_id, channel_name, video_type)` task per category, in the
fixed order NORMAL, SHORT, LIVE, with playlist ids derived by prefix
substitution. -/
def mkTasks (cmap : List (String × String)) : List (String × String × String) :=
  cmap.flatMap (fun p =>
    if ("UC".data.isPrefixOf p.2.data) then
      let suffix : String := ⟨p.2.data.drop 2⟩
      [("UULF" ++ suffix, p.1, "NORMAL"),
       ("UUSH" ++ suffix, p.1, "SHORT"),
       ("UULV" ++ suffix, p.1, "LIVE")]
    else [])

/-- The discovery oracle: the trace of pages each playlist id produces. -/
abbrev Disco := String → List PageResult

/-- The fan-in of `main` (lines 210-237), modelled in task submission
order: a task whose collector succeeds appends one tagged detail per
returned id; a task whose collector re-raised appends nothing. -/
def allDetails (disco : Disco) (cutoff : Int) (tasks : List (String × String × String)) :
    List Detail :=
  tasks.flatMap (fun t =>
    match get_video_ids_from_playlist (disco t.1) cutoff with
    | .ok ids => ids.map (fun i => ⟨i, t.2.1, t.2.2⟩)
    | .error _ => [])

/-- Round-half-to-even to an integer, the tie rule of Python's `round`. -/
def roundHalfEven (q : ℚ) : ℤ :=
  if q - ⌊q⌋ < 1/2 then ⌊q⌋
  else if 1/2 < q - ⌊q⌋ then ⌊q⌋ + 1
  else if 2 ∣ ⌊q⌋ then ⌊q⌋ else ⌊q⌋ + 1

/-- Python's `round(views / count, 2)` for naturals `views` and positive
`count`, represented exactly as a number of hundredths: the round-half-even
integer nearest to `100 * views / count`, computed in ℕ.
`round2Hundredths views count / 100` is the rounded average
(lemma `round2Hundredths_eq` below ties this to `roundHalfEven` over ℚ). -/
def round2Hundredths (views count : Nat) : Nat :=
  let fl := 100 * views / count
  let r := 100 * views % count
  if 2 * r < count then fl
  else if count < 2 * r then fl + 1
  else if fl % 2 = 0 then fl else fl + 1

/-- One output row (main.py lines 255-267): per category, the video count,
the view sum and the derived average with the zero-count guard. -/
structure ChannelRow where
  date : String
  channelName : String
  NORMAL_Count : Nat
  NORMAL_Views : Nat
  NORMAL_Avg : Nat
  SHORT_Count : Nat
  SHORT_Views : Nat
  SHORT_Avg : Nat
  LIVE_Count : Nat
  LIVE_Views : Nat
  LIVE_Avg : Nat
deriving DecidableEq, Repr

/-- The average-with-guard computation (main.py lines 264-267):
`round(views / count, 2)` when `count > 0`, else `0`; the average is
carried in exact hundredths. -/
def avgViews (views count : Nat) : Nat :=
  if count > 0 then round2Hundredths views count else 0

/-- Building one channel's row (main.py lines 255-268): each category's
entry is looked up with a `{0, 0}` default. -/
def buildChannelRow (today : String) (allStats : Key → Entry) (name : String) : ChannelRow :=
  let eN := allStats (name, "NORMAL")
  let eS := allStats (name, "SHORT")
  let eL := allStats (name, "LIVE")
  { date := today, channelName := name,
    NORMAL_Count := eN.video_count, NORMAL_Views := eN.view_count,
    NORMAL_Avg := avgViews eN.view_count eN.video_count,
    SHORT_Count := eS.video_count, SHORT_Views := eS.view_count,
    SHORT_Avg := avgViews eS.view_count eS.video_count,
    LIVE_Count := eL.video_count, LIVE_Views := eL.view_count,
    LIVE_Avg := avgViews eL.view_count eL.video_count }

/-- The third pass of `main` (lines 253-268): one row per channel of the
parsed map, in map order. -/
def all_channels_data (cmap : List (String × String)) (allStats : Key → Entry)
    (today : String) : List ChannelRow :=
  cmap.map (fun p => buildChannelRow today allStats p.1)

/-- The whole run of `main` (lines 161-268) up to the produced rows:
`none` models the early returns (empty parsed map, no tasks, or no
discovered videos — lines 164-166, 199-201, 241-243); otherwise the built
row list. -/
def mainRows (map_string : String) (disco : Disco) (api : StatsApi)
    (cutoff : Int) (today : String) : Option (List ChannelRow) :=
  let cmap := parse_channel_map map_string
  if cmap.isEmpty then none
  else
    let tasks := mkTasks cmap
    if tasks.isEmpty then none
    else
      let dts := allDetails disco cutoff tasks
      if dts.isEmpty then none
      else some (all_channels_data cmap (fetch_all_video_stats api dts) today)

/-! ## Chunking lemmas -/

theorem chunksOfGo_fuel_eq (n : Nat) :
    ∀ (fuel fuel' : Nat) (l : List α), l.length ≤ fuel → l.length ≤ fuel' →
      chunksOfGo n fuel l = chunksOfGo n fuel' l := by
  intro fuel
  induction fuel with
  | zero =>
      intro fuel' l hl _
      have : l = [] := List.length_eq_zero.mp (Nat.le_zero.mp hl)
      subst this
      cases fuel' <;> rfl
  | succ m ih =>
      intro fuel' l hl hl'
      cases l with
      | nil => cases fuel' <;> rfl
      | cons x xs =>
          cases fuel' with
          | zero => simp at hl'
          | succ m' =>
              show (x :: xs).take n :: chunksOfGo n m (xs.drop (n - 1)) =
                   (x :: xs).take n :: chunksOfGo n m' (xs.drop (n - 1))
              congr 1
              apply ih
              · simp only [List.length_drop]
                simp only [List.length_cons] at hl
                omega
              · simp only [List.length_drop]
                simp only [List.length_cons] at hl'
                omega

theorem chunksOf_cons_eq (n : Nat) (hn : 0 < n) (l : List α) (hl : l ≠ []) :
    chunksOf n l = l.take n :: chunksOf n (l.drop n) := by
  cases l with
  | nil => exact absurd rfl hl
  | cons x xs =>
      show (x :: xs).take n :: chunksOfGo n xs.length (xs.drop (n - 1)) = _
      have hdrop : (x :: xs).drop n = xs.drop (n - 1) := by
        cases n with
        | zero => omega
        | succ m => simp [List.drop_succ_cons]
      rw [hdrop]
      congr 1
      exact chunksOfGo_fuel_eq n xs.length _ _
        (by simp only [List.length_drop]; omega) (le_refl _)

/-- Induction along the chunk decomposition: to prove `P` of every list it
is enough to prove it of `[]` and to transfer it from `l.drop n` to `l` for
nonempty `l`. -/
theorem chunksRec (n : Nat) (hn : 0 < n) {P : List α → Prop}
    (h0 : P ([] : List α))
    (hstep : ∀ l : List α, l ≠ [] → P (l.drop n) → P l) :
    ∀ l : List α, P l := by
  have H : ∀ (len : Nat) (l : List α), l.length ≤ len → P l := by
    intro len
    induction len with
    | zero =>
        intro l hl
        have : l = [] := List.length_eq_zero.mp (Nat.le_zero.mp hl)
        exact this ▸ h0
    | succ m ih =>
        intro l hl
        cases l with
        | nil => exact h0
        | cons x xs =>
            refine hstep _ (by simp) (ih _ ?_)
            simp only [List.length_drop, List.length_cons] at hl ⊢
            omega
  exact fun l => H l.length l le_rfl

theorem chunksOf_flatten (n : Nat) (hn : 0 < n) (l : List α) :
    (chunksOf n l).flatten = l := by
  refine chunksRec n hn (P := fun l => (chunksOf n l).flatten = l) rfl
    (fun l hl ih => ?_) l
  have ih' : (chunksOf n (l.drop n)).flatten = l.drop n := ih
  show (chunksOf n l).flatten = l
  rw [chunksOf_cons_eq n hn l hl, List.flatten_cons, ih', List.take_append_drop]

theorem chunksOf_length (n : Nat) (hn : 0 < n) (l : List α) :
    (chunksOf n l).length = (l.length + (n - 1)) / n := by
  refine chunksRec n hn (P := fun l => (chunksOf n l).length = (l.length + (n - 1)) / n)
    ?_ (fun l hl ih => ?_) l
  · show (chunksOf n ([] : List α)).length = (([] : List α).length + (n - 1)) / n
    simp only [chunksOf, chunksOfGo, List.length_nil, Nat.zero_add]
    exact (Nat.div_eq_of_lt (by omega)).symm
  · have ih' : (chunksOf n (l.drop n)).length = ((l.drop n).length + (n - 1)) / n := ih
    show (chunksOf n l).length = (l.length + (n - 1)) / n
    rw [chunksOf_cons_eq n hn l hl]
    have hpos : 0 < l.length := List.length_pos.mpr hl
    simp only [List.length_cons, ih', List.length_drop]
    have key : (l.length + (n - 1)) / n = (l.length - 1) / n + 1 := by
      have h2 : l.length + (n - 1) = (l.length - 1) + n := by omega
      rw [h2, Nat.add_div_right _ hn]
    rw [key]
    congr 1
    rcases Nat.lt_or_ge l.length n with h | h
    · have h1 : l.length - n = 0 := by omega
      rw [h1, Nat.zero_add, Nat.div_eq_of_lt (by omega), Nat.div_eq_of_lt (by omega)]
    · congr 1
      omega

theorem chunksOf_mem_length (n : Nat) (hn : 0 < n) (l : List α) :
    ∀ c ∈ chunksOf n l, c.length ≤ n := by
  refine chunksRec n hn (P := fun l => ∀ c ∈ chunksOf n l, c.length ≤ n)
    (by simp [chunksOf, chunksOfGo]) (fun l hl ih => ?_) l
  have ih' : ∀ c ∈ chunksOf n (l.drop n), c.length ≤ n := ih
  show ∀ c ∈ chunksOf n l, c.length ≤ n
  rw [chunksOf_cons_eq n hn l hl]
  intro c hc
  rcases List.mem_cons.mp hc with h | h
  · subst h
    simp [List.length_take]
  · exact ih' c h

theorem chunksOf_ne_nil (n : Nat) (hn : 0 < n) (l : List α) (hl : l ≠ []) :
    chunksOf n l ≠ [] := by
  rw [chunksOf_cons_eq n hn l hl]
  simp

theorem chunksOf_dropLast_length (n : Nat) (hn : 0 < n) (l : List α) :
    ∀ c ∈ (chunksOf n l).dropLast, c.length = n := by
  refine chunksRec n hn (P := fun l => ∀ c ∈ (chunksOf n l).dropLast, c.length = n)
    (by simp [chunksOf, chunksOfGo]) (fun l hl ih => ?_) l
  have ih' : ∀ c ∈ (chunksOf n (l.drop n)).dropLast, c.length = n := ih
  show ∀ c ∈ (chunksOf n l).dropLast, c.length = n
  rw [chunksOf_cons_eq n hn l hl]
  by_cases hrest : l.drop n = []
  · rw [hrest]
    simp [chunksOf, chunksOfGo]
  · have hne : chunksOf n (l.drop n) ≠ [] := chunksOf_ne_nil n hn _ hrest
    rw [List.dropLast_cons_of_ne_nil hne]
    intro c hc
    rcases List.mem_cons.mp hc with h | h
    · subst h
      have : n ≤ l.length := by
        by_contra hcon
        exact hrest (List.drop_eq_nil_of_le (by omega))
      simp [List.length_take]
      omega
    · exact ih' c h

/-- A 101-element input to the statistics fetcher. -/
def dts101 : List Detail := List.replicate 101 ⟨"V", "A", "NORMAL"⟩

/-- C6.  `fetch_all_video_stats` slices its input ids into consecutive
chunks of exactly 50 (the last possibly shorter), issuing one request per
chunk: the requests concatenate back to the input ids in order, there are
`ceil(n / 50)` of them, every chunk has at most 50 ids, every chunk except
possibly the last has exactly 50, and a 101-id input yields exactly three
requests of sizes 50, 50 and 1. -/
theorem fetch_requests_partition (dts : List Detail) :
    (statsRequests dts).flatten = dts.map Detail.id ∧
    (statsRequests dts).length = (dts.length + 49) / 50 ∧
    (∀ c ∈ statsRequests dts, c.length ≤ 50) ∧
    (∀ c ∈ (statsRequests dts).dropLast, c.length = 50) ∧
    (statsRequests dts101).map List.length = [50, 50, 1] := by
  refine ⟨chunksOf_flatten 50 (by omega) _,
    ?_, chunksOf_mem_length 50 (by omega) _,
    chunksOf_dropLast_length 50 (by omega) _, by decide⟩
  rw [statsRequests, chunksOf_length 50 (by omega)]
  simp

/-- Witness for C6: instantiation at the concrete 101-element input, the
membership hypotheses discharged at the first chunk. -/
theorem fetch_requests_partition_witness :
    (statsRequests dts101).flatten = dts101.map Detail.id ∧
    (statsRequests dts101).length = 3 ∧
    (List.replicate 50 "V").length ≤ 50 := by
  obtain ⟨h1, h2, h3, -, -⟩ := fetch_requests_partition dts101
  refine ⟨h1, ?_, h3 (List.replicate 50 "V") (by decide)⟩
  rw [h2]
  decide

/-! ## C5: a failed statistics chunk is skipped entirely -/

theorem foldl_stepChunk_filter (api : StatsApi) (dts : List Detail) :
    ∀ (cs : List (List String)) (acc : Acc),
      cs.foldl (stepChunk api dts) acc =
        (cs.filter (fun c => (api c).isSome)).foldl (stepChunk api dts) acc := by
  intro cs
  induction cs with
  | nil => intro acc; rfl
  | cons c rest ih =>
      intro acc
      cases hc : api c with
      | none =>
          have hskip : stepChunk api dts acc c = acc := by
            simp [stepChunk, hc]
          simp only [List.foldl_cons, List.filter_cons, hc, Option.isSome_none,
            Bool.false_eq_true, if_false, hskip]
          exact ih acc
      | some items =>
          simp only [List.foldl_cons, List.filter_cons, hc, Option.isSome_some, if_true]
          exact ih _

/-- C5.  A chunk whose statistics request raises is skipped entirely: the
step for a failed chunk is the identity on both accumulators, and the whole
fetch computes exactly what it would compute on the successful requests
alone, so a failed chunk's videos contribute nothing while every other
chunk's contribution is unchanged (and no request is retried: each chunk
occurs once in the request list). -/
theorem failed_chunk_skipped (api : StatsApi) (dts : List Detail) (acc : Acc)
    (chunk : List String) :
    (api chunk = none → stepChunk api dts acc chunk = acc) ∧
    runChunks api dts (statsRequests dts) =
      runChunks api dts ((statsRequests dts).filter (fun c => (api c).isSome)) ∧
    (∀ k, fetch_all_video_stats api dts k =
      ⟨(runChunks api dts ((statsRequests dts).filter (fun c => (api c).isSome))).stats k,
       (runChunks api dts ((statsRequests dts).filter (fun c => (api c).isSome))).counts k⟩) := by
  have hrun : runChunks api dts (statsRequests dts) =
      runChunks api dts ((statsRequests dts).filter (fun c => (api c).isSome)) :=
    foldl_stepChunk_filter api dts _ _
  refine ⟨fun hc => by simp [stepChunk, hc], hrun, fun k => ?_⟩
  by_cases hdts : dts.isEmpty
  · have : dts = [] := by
      cases dts with
      | nil => rfl
      | cons d rest => simp at hdts
    subst this
    rfl
  · rw [fetch_all_video_stats, if_neg hdts, ← hrun]

/-- Witness for C5: instantiation at an oracle that fails on the only
chunk, the failure hypothesis discharged by `rfl`. -/
theorem failed_chunk_skipped_witness :
    stepChunk (fun _ => none) [] ⟨fun _ => 0, fun _ => 0⟩ ["x"] = ⟨fun _ => 0, fun _ => 0⟩ :=
  (failed_chunk_skipped (fun _ => none) [] ⟨fun _ => 0, fun _ => 0⟩ ["x"]).1 rfl

/-! ## The playlist collector: C7 and C4 -/

theorem collectGo_all_ok (cutoff : Int) :
    ∀ (pages : List PageResult) (acc : List String),
      (∀ p ∈ pages, p.isOk = true) →
      collectGo cutoff pages acc =
        .ok (acc ++ (visitedItems pages).flatMap (pageIds cutoff)) := by
  intro pages
  induction pages with
  | nil => intro acc _; simp [collectGo, visitedItems]
  | cons page rest ih =>
      intro acc hok
      cases page with
      | err msg =>
          have := hok (.err msg) (List.mem_cons_self _ _)
          simp [PageResult.isOk] at this
      | ok items tok =>
          cases tok with
          | true =>
              have hrest : ∀ p ∈ rest, p.isOk = true :=
                fun p hp => hok p (List.mem_cons_of_mem _ hp)
              simp only [collectGo, if_true, visitedItems, List.flatMap_cons]
              rw [ih _ hrest, List.append_assoc]
          | false =>
              simp [collectGo, visitedItems]

/-- C7.  On an error-free trace the collector never includes an item whose
publish timestamp is strictly before the cutoff: it returns exactly the
ids of the in-window items (`publishedAt ≥ cutoff`) of the visited pages,
and an id is returned iff some visited item carries it with an in-window
timestamp; pagination visits every page up to and including the first one
without a continuation token. -/
theorem collector_filters_cutoff (pages : List PageResult) (cutoff : Int)
    (hok : ∀ p ∈ pages, p.isOk = true) :
    get_video_ids_from_playlist pages cutoff =
      .ok ((visitedItems pages).flatMap (pageIds cutoff)) ∧
    ∀ v, v ∈ (visitedItems pages).flatMap (pageIds cutoff) ↔
      ∃ its ∈ visitedItems pages, ∃ it ∈ its,
        it.videoId = v ∧ cutoff ≤ it.publishedAt := by
  constructor
  · exact collectGo_all_ok cutoff pages [] hok
  · intro v
    simp only [List.mem_flatMap, pageIds, List.mem_map, List.mem_filter,
      decide_eq_true_eq]
    constructor
    · rintro ⟨its, hits, it, ⟨hmem, hcut⟩, hid⟩
      exact ⟨its, hits, it, hmem, hid, hcut⟩
    · rintro ⟨its, hits, it, hmem, hid, hcut⟩
      exact ⟨its, hits, it, ⟨hmem, hcut⟩, hid⟩

/-- Witness for C7: a two-page error-free trace with one out-of-window
item; the collector returns exactly the in-window ids. -/
theorem collector_filters_cutoff_witness :
    get_video_ids_from_playlist
        [.ok [⟨"a", 5⟩, ⟨"b", -3⟩] true, .ok [⟨"c", 7⟩] false] 0 =
      .ok ((visitedItems [.ok [⟨"a", 5⟩, ⟨"b", -3⟩] true, .ok [⟨"c", 7⟩] false]).flatMap
        (pageIds 0)) ∧
    (visitedItems [.ok [⟨"a", 5⟩, ⟨"b", -3⟩] true, .ok [⟨"c", 7⟩] false]).flatMap
        (pageIds 0) = ["a", "c"] :=
  ⟨(collector_filters_cutoff _ 0 (by decide)).1, by decide⟩

/-- Counterexample to C4 as stated: when the SECOND page request of a
playlist raises `"playlistNotFound"`, the collector returns the partial
(non-empty) id list gathered from the first page, not an empty sequence. -/
theorem playlist_not_found_counterexample :
    get_video_ids_from_playlist
        [.ok [⟨"v1", 5⟩] true, .err "playlistNotFound"] 0 = .ok ["v1"] ∧
    (["v1"] : List String) ≠ [] :=
  ⟨rfl, by decide⟩

theorem collect_err_first (cutoff : Int) (msg : String) (rest : List PageResult)
    (h : containsSubstr msg "playlistNotFound" = true) :
    get_video_ids_from_playlist (PageResult.err msg :: rest) cutoff = .ok [] := by
  simp [get_video_ids_from_playlist, collectGo, h]

theorem allDetails_congr (disco disco' : Disco) (cutoff : Int)
    (h : ∀ pid, get_video_ids_from_playlist (disco pid) cutoff =
      get_video_ids_from_playlist (disco' pid) cutoff) :
    ∀ tasks, allDetails disco cutoff tasks = allDetails disco' cutoff tasks := by
  intro tasks
  induction tasks with
  | nil => rfl
  | cons t rest ih =>
      simp only [allDetails, List.flatMap_cons] at ih ⊢
      rw [h t.1, ih]

/-- C4, amended.  A `"playlistNotFound"` error is caught, and the collector
returns the ids gathered before the error — an empty sequence whenever the
FIRST page request for the playlist raises it.  In that case the run is
indistinguishable from one in which the playlist simply has no pages: the
affected `(channel, category)` contributes no tagged ids, so its entry
reads `{0, 0}` downstream, and no other channel's or category's row
changes. -/
theorem playlist_not_found_amended (map_string : String) (disco disco' : Disco)
    (api : StatsApi) (cutoff : Int) (today : String) (p msg : String)
    (rest : List PageResult)
    (hmsg : containsSubstr msg "playlistNotFound" = true)
    (hp : disco p = PageResult.err msg :: rest)
    (hp' : disco' p = [])
    (hagree : ∀ q, q ≠ p → disco q = disco' q) :
    get_video_ids_from_playlist (disco p) cutoff = .ok [] ∧
    mainRows map_string disco api cutoff today =
      mainRows map_string disco' api cutoff today := by
  have hcol : ∀ q, get_video_ids_from_playlist (disco q) cutoff =
      get_video_ids_from_playlist (disco' q) cutoff := by
    intro q
    by_cases hq : q = p
    · subst hq
      rw [hp, hp', collect_err_first cutoff msg rest hmsg]
      rfl
    · rw [hagree q hq]
  refine ⟨by rw [hp]; exact collect_err_first cutoff msg rest hmsg, ?_⟩
  simp only [mainRows]
  rw [allDetails_congr disco disco' cutoff hcol]

/-- Witness for C4's amended theorem: a one-channel map whose NORMAL
playlist raises `"playlistNotFound"` on its first page. -/
theorem playlist_not_found_amended_witness :
    get_video_ids_from_playlist
        ((fun q => if q = "UULFab" then [PageResult.err "playlistNotFound"]
          else [PageResult.ok [⟨"x", 3⟩] false]) "UULFab") 0 = .ok [] ∧
    mainRows "A:UCab"
        (fun q => if q = "UULFab" then [PageResult.err "playlistNotFound"]
          else [PageResult.ok [⟨"x", 3⟩] false])
        (fun _ => some []) 0 "d" =
      mainRows "A:UCab"
        (fun q => if q = "UULFab" then []
          else [PageResult.ok [⟨"x", 3⟩] false])
        (fun _ => some []) 0 "d" :=
  playlist_not_found_amended "A:UCab"
    (fun q => if q = "UULFab" then [PageResult.err "playlistNotFound"]
      else [PageResult.ok [⟨"x", 3⟩] false])
    (fun q => if q = "UULFab" then []
      else [PageResult.ok [⟨"x", 3⟩] false])
    (fun _ => some []) 0 "d" "UULFab"
    "playlistNotFound" [] (by decide) (by decide) (by decide)
    (fun q hq => by simp [if_neg hq])

/-! ## Keys never mentioned by any detail stay at zero -/

theorem foldl_addItemViews_apply_ne (dts : List Detail) (k : Key)
    (h : ∀ d ∈ dts, detailKey d ≠ k) :
    ∀ (items : List StatsItem) (s : Key → Nat),
      (items.foldl (addItemViews dts) s) k = s k := by
  intro items
  induction items with
  | nil => intro s; rfl
  | cons it rest ih =>
      intro s
      rw [List.foldl_cons, ih]
      unfold addItemViews
      cases hf : dts.find? (fun d => d.id == it.id) with
      | none => rfl
      | some d =>
          have hd : d ∈ dts := List.mem_of_find?_eq_some hf
          show (if k = detailKey d then s k + it.viewCount.getD 0 else s k) = s k
          rw [if_neg (fun hk => h d hd hk.symm)]

theorem addChunkCounts_apply_ne (processed : List String) (k : Key) :
    ∀ (dts : List Detail), (∀ d ∈ dts, detailKey d ≠ k) →
      ∀ c : Key → Nat, addChunkCounts processed dts c k = c k := by
  intro dts
  induction dts with
  | nil => intro _ c; rfl
  | cons d rest ih =>
      intro h c
      unfold addChunkCounts at ih ⊢
      rw [List.foldl_cons]
      rw [ih (fun d' hd' => h d' (List.mem_cons_of_mem _ hd'))]
      by_cases hin : processed.contains d.id = true
      · rw [if_pos hin]
        show (if k = detailKey d then c k + 1 else c k) = c k
        rw [if_neg (fun hk => h d (List.mem_cons_self _ _) hk.symm)]
      · rw [if_neg hin]

theorem runChunks_apply_ne (api : StatsApi) (dts : List Detail) (k : Key)
    (h : ∀ d ∈ dts, detailKey d ≠ k) :
    ∀ (chunks : List (List String)) (acc : Acc),
      (chunks.foldl (stepChunk api dts) acc).stats k = acc.stats k ∧
      (chunks.foldl (stepChunk api dts) acc).counts k = acc.counts k := by
  intro chunks
  induction chunks with
  | nil => intro acc; exact ⟨rfl, rfl⟩
  | cons c rest ih =>
      intro acc
      rw [List.foldl_cons]
      refine ⟨((ih _).1).trans ?_, ((ih _).2).trans ?_⟩
      · cases hc : api c with
        | none => simp [stepChunk, hc]
        | some items =>
            simp only [stepChunk, hc]
            exact foldl_addItemViews_apply_ne dts k h items acc.stats
      · cases hc : api c with
        | none => simp [stepChunk, hc]
        | some items =>
            simp only [stepChunk, hc]
            exact addChunkCounts_apply_ne _ k dts h acc.counts

theorem fetch_zero_of_no_key (api : StatsApi) (dts : List Detail) (k : Key)
    (h : ∀ d ∈ dts, detailKey d ≠ k) :
    fetch_all_video_stats api dts k = ⟨0, 0⟩ := by
  unfold fetch_all_video_stats
  by_cases hdts : dts.isEmpty
  · simp [hdts]
  · simp only [hdts, if_false, Bool.false_eq_true]
    obtain ⟨h1, h2⟩ := runChunks_apply_ne api dts k h (statsRequests dts)
      ⟨fun _ => 0, fun _ => 0⟩
    rw [runChunks] at *
    rw [h1, h2]

theorem buildChannelRow_zero (api : StatsApi) (dts : List Detail)
    (today name : String) (h : ∀ d ∈ dts, d.channel_name ≠ name) :
    buildChannelRow today (fetch_all_video_stats api dts) name =
      ⟨today, name, 0, 0, 0, 0, 0, 0, 0, 0, 0⟩ := by
  have hk : ∀ vt : String, fetch_all_video_stats api dts (name, vt) = ⟨0, 0⟩ := by
    intro vt
    refine fetch_zero_of_no_key api dts (name, vt) (fun d hd hkey => ?_)
    exact h d hd (congrArg Prod.fst hkey)
  simp [buildChannelRow, hk, avgViews]

/-! ## C1: row count of the aggregate-building phase -/

/-- Counterexample to C1 as stated: a parsed channel map with one entry
whose every discovery returns no videos.  `main` takes the early return at
lines 241-243 ("No se encontraron videos para analizar.") before the
aggregate-building phase, so no row at all is produced — not one all-zero
row per channel. -/
theorem row_count_counterexample :
    (parse_channel_map "A:UCx").length = 1 ∧
    mainRows "A:UCx" (fun _ => []) (fun _ => none) 0 "d" = none :=
  ⟨by decide, by decide⟩

/-- C1, amended.  Whenever the aggregate-building phase is reached (the
parsed map is non-empty and at least one video id was collected, so `main`
does not early-return), the output has exactly one row per parsed channel
entry, in map order; and a channel for which every discovery or fetch
operation failed (no collected detail carries its name) still appears,
with all-zero counts, views and averages. -/
theorem row_count_amended (map_string : String) (disco : Disco) (api : StatsApi)
    (cutoff : Int) (today : String) (rows : List ChannelRow)
    (heq : mainRows map_string disco api cutoff today = some rows) :
    rows.length = (parse_channel_map map_string).length ∧
    rows.map ChannelRow.channelName = (parse_channel_map map_string).map Prod.fst ∧
    ∀ name,
      (∀ d ∈ allDetails disco cutoff (mkTasks (parse_channel_map map_string)),
        d.channel_name ≠ name) →
      ∀ row ∈ rows, row.channelName = name →
        row = ⟨today, name, 0, 0, 0, 0, 0, 0, 0, 0, 0⟩ := by
  simp only [mainRows] at heq
  by_cases h1 : (parse_channel_map map_string).isEmpty
  · simp [h1] at heq
  by_cases h2 : (mkTasks (parse_channel_map map_string)).isEmpty
  · simp [h1, h2] at heq
  by_cases h3 : (allDetails disco cutoff (mkTasks (parse_channel_map map_string))).isEmpty
  · simp [h1, h2, h3] at heq
  · simp only [h1, h2, h3, if_false, Bool.false_eq_true, Option.some.injEq] at heq
    subst heq
    refine ⟨by simp [all_channels_data], ?_, ?_⟩
    · simp only [all_channels_data, List.map_map]
      rfl
    · intro name hname row hrow hrowname
      simp only [all_channels_data, List.mem_map] at hrow
      obtain ⟨p, hp, hrow⟩ := hrow
      have hpname : p.1 = name := by
        rw [← hrowname, ← hrow]
        rfl
      rw [← hrow, hpname]
      exact buildChannelRow_zero api _ today name hname

/-- Witness for C1's amended theorem: a two-channel map where channel A's
NORMAL playlist yields one video and channel B fails everywhere; the run
produces exactly two rows, B's all-zero. -/
theorem row_count_amended_witness :
    ([⟨"d", "A", 1, 10, 1000, 0, 0, 0, 0, 0, 0⟩,
      ⟨"d", "B", 0, 0, 0, 0, 0, 0, 0, 0, 0⟩] : List ChannelRow).length =
      (parse_channel_map "A:UCab,B:UCcd").length :=
  (row_count_amended "A:UCab,B:UCcd"
    (fun q => if q = "UULFab" then [PageResult.ok [⟨"v1", 5⟩] false] else [])
    (fun c => some (c.map (fun i => ⟨i, some 10⟩))) 0 "d"
    [⟨"d", "A", 1, 10, 1000, 0, 0, 0, 0, 0, 0⟩,
     ⟨"d", "B", 0, 0, 0, 0, 0, 0, 0, 0, 0⟩] (by decide)).1

/-! ## C3: the zero-count guard on per-video averages -/

/-- The hundredths computation agrees with round-half-even of the exact
rational `100 * views / count`: it is Python's `round(views / count, 2)`
scaled by 100. -/
theorem round2Hundredths_eq (v c : Nat) (hc : 0 < c) :
    (round2Hundredths v c : ℤ) = roundHalfEven ((100 * (v : ℚ)) / (c : ℚ)) := by
  have hcQ : (0 : ℚ) < c := by exact_mod_cast hc
  have hdecomp : 100 * v = c * (100 * v / c) + 100 * v % c := (Nat.div_add_mod _ _).symm
  have hrc : 100 * v % c < c := Nat.mod_lt _ hc
  have key : (100 * (v : ℚ)) = ((100 * v / c : ℕ) : ℚ) * c + ((100 * v % c : ℕ) : ℚ) := by
    have h0 : ((100 * v : ℕ) : ℚ) = ((c * (100 * v / c) + 100 * v % c : ℕ) : ℚ) := by
      exact_mod_cast hdecomp
    push_cast at h0
    linarith
  have hq : (100 * (v : ℚ)) / c =
      ((100 * v / c : ℕ) : ℚ) + ((100 * v % c : ℕ) : ℚ) / c := by
    field_simp
    linarith [key]
  have hfr01 : (0 : ℚ) ≤ ((100 * v % c : ℕ) : ℚ) / c := by positivity
  have hfr1 : ((100 * v % c : ℕ) : ℚ) / c < 1 := by
    rw [div_lt_one hcQ]
    exact_mod_cast hrc
  have hfloor : ⌊(100 * (v : ℚ)) / c⌋ = ((100 * v / c : ℕ) : ℤ) := by
    rw [hq, Int.floor_eq_iff]
    constructor
    · simp only [Int.cast_natCast]
      linarith
    · simp only [Int.cast_natCast]
      linarith
  have hfrac : (100 * (v : ℚ)) / c - (⌊(100 * (v : ℚ)) / c⌋ : ℚ) =
      ((100 * v % c : ℕ) : ℚ) / c := by
    rw [hfloor, hq]
    simp only [Int.cast_natCast]
    ring
  have h1 : (((100 * v % c : ℕ) : ℚ) / c < 1 / 2) ↔ (2 * (100 * v % c) < c) := by
    rw [div_lt_div_iff₀ hcQ (by norm_num : (0 : ℚ) < 2)]
    constructor
    · intro h
      have : ((2 * (100 * v % c) : ℕ) : ℚ) < ((c : ℕ) : ℚ) := by push_cast; linarith
      exact_mod_cast this
    · intro h
      have : ((2 * (100 * v % c) : ℕ) : ℚ) < ((c : ℕ) : ℚ) := by exact_mod_cast h
      push_cast at this
      linarith
  have h2 : (1 / 2 < ((100 * v % c : ℕ) : ℚ) / c) ↔ (c < 2 * (100 * v % c)) := by
    rw [div_lt_div_iff₀ (by norm_num : (0 : ℚ) < 2) hcQ]
    constructor
    · intro h
      have : ((c : ℕ) : ℚ) < ((2 * (100 * v % c) : ℕ) : ℚ) := by push_cast; linarith
      exact_mod_cast this
    · intro h
      have : ((c : ℕ) : ℚ) < ((2 * (100 * v % c) : ℕ) : ℚ) := by exact_mod_cast h
      push_cast at this
      linarith
  have h3 : ((2 : ℤ) ∣ ((100 * v / c : ℕ) : ℤ)) ↔ ((100 * v / c) % 2 = 0) := by omega
  unfold round2Hundredths roundHalfEven
  rw [hfrac, hfloor]
  simp only [h1, h2, h3]
  split_ifs <;> push_cast <;> ring

theorem avgViews_spec (v c : Nat) :
    (c = 0 → avgViews v c = 0) ∧ (0 < c → avgViews v c = round2Hundredths v c) := by
  constructor
  · intro h
    simp [avgViews, h]
  · intro h
    rw [avgViews, if_pos h]

/-- C3.  In every produced row and every category, the per-video average
field carries `round(viewSum / count, 2)` (in exact hundredths, see
`round2Hundredths_eq`) exactly when that category's video count is
positive, and `0` when the count is zero — the guard in main.py lines
264-267 means the dividing branch is only ever taken with a positive
divisor. -/
theorem avg_zero_guard (cmap : List (String × String)) (allStats : Key → Entry)
    (today : String) (row : ChannelRow)
    (hrow : row ∈ all_channels_data cmap allStats today) :
    ((row.NORMAL_Count = 0 → row.NORMAL_Avg = 0) ∧
     (0 < row.NORMAL_Count →
       row.NORMAL_Avg = round2Hundredths row.NORMAL_Views row.NORMAL_Count)) ∧
    ((row.SHORT_Count = 0 → row.SHORT_Avg = 0) ∧
     (0 < row.SHORT_Count →
       row.SHORT_Avg = round2Hundredths row.SHORT_Views row.SHORT_Count)) ∧
    ((row.LIVE_Count = 0 → row.LIVE_Avg = 0) ∧
     (0 < row.LIVE_Count →
       row.LIVE_Avg = round2Hundredths row.LIVE_Views row.LIVE_Count)) := by
  simp only [all_channels_data, List.mem_map] at hrow
  obtain ⟨p, hp, hrow⟩ := hrow
  subst hrow
  exact ⟨avgViews_spec _ _, avgViews_spec _ _, avgViews_spec _ _⟩

/-- Witness for C3: a row whose categories all hold 10 views over 4
videos; the average field is `round2Hundredths 10 4 = 250` hundredths,
i.e. `round(10 / 4, 2) = 2.5`. -/
theorem avg_zero_guard_witness :
    (buildChannelRow "d" (fun _ => ⟨10, 4⟩) "A").NORMAL_Avg =
      round2Hundredths (buildChannelRow "d" (fun _ => ⟨10, 4⟩) "A").NORMAL_Views
        (buildChannelRow "d" (fun _ => ⟨10, 4⟩) "A").NORMAL_Count ∧
    round2Hundredths 10 4 = 250 :=
  ⟨((avg_zero_guard [("A", "UCx")] (fun _ => ⟨10, 4⟩) "d"
      (buildChannelRow "d" (fun _ => ⟨10, 4⟩) "A") (by decide)).1).2 (by decide),
   by decide⟩


/-! ## Canonical form of the fetch under a per-id statistics oracle -/

/-- A per-id statistics response table: `stats i = none` models an id the
batch response omits; `stats i = some vc` models a response item for `i`
whose optional `viewCount` field is `vc`. -/
abbrev IdStats := String → Option (Option Nat)

/-- The statistics oracle induced by a per-id response table, matching the
platform interface of §6: every request succeeds, each distinct requested
id found in the table appears exactly once in the response, ids not found
are silently omitted. -/
def apiOf (stats : IdStats) : StatsApi :=
  fun chunk => some (chunk.dedup.filterMap (fun i => (stats i).map (fun vc => ⟨i, vc⟩)))

/-- The view-sum contribution of one response item to key `k`. -/
def itemView (dts : List Detail) (k : Key) (it : StatsItem) : Nat :=
  match dts.find? (fun d => d.id == it.id) with
  | some d => if detailKey d = k then it.viewCount.getD 0 else 0
  | none => 0

/-- The view-sum contribution of one requested id to key `k` under a
per-id response table. -/
def idView (stats : IdStats) (dts : List Detail) (k : Key) (i : String) : Nat :=
  match stats i with
  | some vc =>
      match dts.find? (fun d => d.id == i) with
      | some d => if detailKey d = k then vc.getD 0 else 0
      | none => 0
  | none => 0

/-- Canonical view sum: each detail whose key is `k` and whose id is
present in the response table contributes its (defaulted) view count. -/
def canonView (stats : IdStats) (dts : List Detail) (k : Key) : Nat :=
  (dts.map (fun d =>
    match stats d.id with
    | some vc => if detailKey d = k then vc.getD 0 else 0
    | none => 0)).sum

/-- Canonical video count: the number of input occurrences whose key is
`k` and whose id is present in the response table. -/
def canonCount (stats : IdStats) (dts : List Detail) (k : Key) : Nat :=
  dts.countP (fun d => (stats d.id).isSome && decide (detailKey d = k))

theorem addItemViews_apply (dts : List Detail) (s : Key → Nat) (it : StatsItem) (k : Key) :
    addItemViews dts s it k = s k + itemView dts k it := by
  unfold addItemViews itemView
  cases hf : dts.find? (fun d => d.id == it.id) with
  | none => simp
  | some d =>
      show (if k = detailKey d then s k + it.viewCount.getD 0 else s k) =
        s k + (if detailKey d = k then it.viewCount.getD 0 else 0)
      by_cases h : detailKey d = k
      · rw [if_pos h.symm, if_pos h]
      · rw [if_neg (fun hk => h hk.symm), if_neg h, Nat.add_zero]

theorem foldl_addItemViews_apply (dts : List Detail) (k : Key) :
    ∀ (items : List StatsItem) (s : Key → Nat),
      (items.foldl (addItemViews dts) s) k = s k + (items.map (itemView dts k)).sum := by
  intro items
  induction items with
  | nil => intro s; simp
  | cons it rest ih =>
      intro s
      rw [List.foldl_cons, ih, addItemViews_apply, List.map_cons, List.sum_cons]
      omega

theorem addChunkCounts_apply (processed : List String) (k : Key) :
    ∀ (dts : List Detail) (c : Key → Nat),
      addChunkCounts processed dts c k =
        c k + dts.countP (fun d => processed.contains d.id && decide (detailKey d = k)) := by
  intro dts
  induction dts with
  | nil => intro c; simp [addChunkCounts]
  | cons d rest ih =>
      intro c
      have hstep : addChunkCounts processed (d :: rest) c =
          addChunkCounts processed rest
            (if processed.contains d.id then bump c (detailKey d) 1 else c) := rfl
      rw [hstep, ih, List.countP_cons]
      have key : (if processed.contains d.id then bump c (detailKey d) 1 else c) k =
          c k + (if (processed.contains d.id && decide (detailKey d = k)) = true
            then 1 else 0) := by
        cases hin : processed.contains d.id with
        | false =>
            rw [if_neg Bool.false_ne_true]
            simp
        | true =>
            rw [if_pos rfl, Bool.true_and]
            show (if k = detailKey d then c k + 1 else c k) =
              c k + (if decide (detailKey d = k) = true then 1 else 0)
            by_cases hk : detailKey d = k
            · rw [decide_eq_true hk, if_pos hk.symm, if_pos rfl]
            · rw [decide_eq_false hk, if_neg (fun h => hk h.symm),
                if_neg Bool.false_ne_true, Nat.add_zero]
      rw [key]
      omega

/-- The view-sum delta a chunk contributes to key `k`. -/
def chunkViewSum (api : StatsApi) (dts : List Detail) (k : Key) (chunk : List String) : Nat :=
  match api chunk with
  | none => 0
  | some items => (items.map (itemView dts k)).sum

/-- The video-count delta a chunk contributes to key `k`. -/
def chunkCountSum (api : StatsApi) (dts : List Detail) (k : Key) (chunk : List String) : Nat :=
  match api chunk with
  | none => 0
  | some items =>
      dts.countP (fun d => (items.map (·.id)).contains d.id && decide (detailKey d = k))

theorem stepChunk_apply (api : StatsApi) (dts : List Detail) (acc : Acc)
    (chunk : List String) (k : Key) :
    (stepChunk api dts acc chunk).stats k = acc.stats k + chunkViewSum api dts k chunk ∧
    (stepChunk api dts acc chunk).counts k = acc.counts k + chunkCountSum api dts k chunk := by
  cases hc : api chunk with
  | none => simp [stepChunk, hc, chunkViewSum, chunkCountSum]
  | some items =>
      constructor
      · simp only [stepChunk, hc, chunkViewSum]
        exact foldl_addItemViews_apply dts k items acc.stats
      · simp only [stepChunk, hc, chunkCountSum]
        exact addChunkCounts_apply _ k dts acc.counts

theorem runChunks_foldl_apply (api : StatsApi) (dts : List Detail) (k : Key) :
    ∀ (chunks : List (List String)) (acc : Acc),
      (chunks.foldl (stepChunk api dts) acc).stats k =
        acc.stats k + (chunks.map (chunkViewSum api dts k)).sum ∧
      (chunks.foldl (stepChunk api dts) acc).counts k =
        acc.counts k + (chunks.map (chunkCountSum api dts k)).sum := by
  intro chunks
  induction chunks with
  | nil => intro acc; simp
  | cons c rest ih =>
      intro acc
      rw [List.foldl_cons]
      obtain ⟨h1, h2⟩ := ih (stepChunk api dts acc c)
      obtain ⟨g1, g2⟩ := stepChunk_apply api dts acc c k
      rw [h1, h2, g1, g2, List.map_cons, List.sum_cons, List.map_cons, List.sum_cons]
      omega


theorem filterMap_map_id (stats : IdStats) :
    ∀ l : List String,
      (l.filterMap (fun i => (stats i).map (fun vc => StatsItem.mk i vc))).map StatsItem.id =
        l.filter (fun i => (stats i).isSome) := by
  intro l
  induction l with
  | nil => rfl
  | cons i rest ih =>
      cases hi : stats i with
      | none => simp [List.filterMap_cons, hi, List.filter_cons, ih]
      | some vc => simp [List.filterMap_cons, hi, List.filter_cons, ih]

theorem filterMap_itemView_sum (stats : IdStats) (dts : List Detail) (k : Key) :
    ∀ l : List String,
      ((l.filterMap (fun i => (stats i).map (fun vc => StatsItem.mk i vc))).map
        (itemView dts k)).sum = (l.map (idView stats dts k)).sum := by
  intro l
  induction l with
  | nil => rfl
  | cons i rest ih =>
      cases hi : stats i with
      | none => simp [List.filterMap_cons, hi, idView, ih]
      | some vc => simp [List.filterMap_cons, hi, idView, itemView, ih]

theorem chunkViewSum_apiOf (stats : IdStats) (dts : List Detail) (k : Key)
    (c : List String) (hc : c.Nodup) :
    chunkViewSum (apiOf stats) dts k c = (c.map (idView stats dts k)).sum := by
  show ((c.dedup.filterMap _).map (itemView dts k)).sum = _
  rw [List.Nodup.dedup hc, filterMap_itemView_sum]

theorem chunkCountSum_apiOf (stats : IdStats) (dts : List Detail) (k : Key)
    (c : List String) (hc : c.Nodup) :
    chunkCountSum (apiOf stats) dts k c =
      dts.countP (fun d =>
        (c.filter (fun i => (stats i).isSome)).contains d.id &&
          decide (detailKey d = k)) := by
  show dts.countP (fun d => ((c.dedup.filterMap _).map StatsItem.id).contains d.id && _) = _
  rw [List.Nodup.dedup hc, filterMap_map_id]

theorem chunksOf_nodup (n : Nat) (hn : 0 < n) (l : List α) (h : l.Nodup) :
    ∀ c ∈ chunksOf n l, c.Nodup := by
  refine chunksRec n hn (P := fun l => l.Nodup → ∀ c ∈ chunksOf n l, c.Nodup)
    (by simp [chunksOf, chunksOfGo]) (fun l hl ih => ?_) l h
  intro hnod c hc
  rw [chunksOf_cons_eq n hn l hl] at hc
  rcases List.mem_cons.mp hc with h1 | h1
  · exact h1 ▸ List.Nodup.sublist (List.take_sublist n l) hnod
  · exact ih (List.Nodup.sublist (List.drop_sublist n l) hnod) c h1

theorem sum_chunkViewSum (stats : IdStats) (dts : List Detail) (k : Key)
    (l : List String) (h : l.Nodup) :
    ((chunksOf 50 l).map (chunkViewSum (apiOf stats) dts k)).sum =
      (l.map (idView stats dts k)).sum := by
  refine chunksRec 50 (by omega)
    (P := fun l => l.Nodup →
      ((chunksOf 50 l).map (chunkViewSum (apiOf stats) dts k)).sum =
        (l.map (idView stats dts k)).sum)
    (by intro _; rfl) (fun l hl ih => ?_) l h
  intro hnod
  rw [chunksOf_cons_eq 50 (by omega) l hl, List.map_cons, List.sum_cons,
    chunkViewSum_apiOf stats dts k _ (List.Nodup.sublist (List.take_sublist 50 l) hnod),
    ih (List.Nodup.sublist (List.drop_sublist 50 l) hnod),
    ← List.sum_append, ← List.map_append, List.take_append_drop]

theorem countP_or_exclusive (p q : Detail → Bool) :
    ∀ dts : List Detail, (∀ d ∈ dts, ¬(p d = true ∧ q d = true)) →
      dts.countP (fun d => p d || q d) = dts.countP p + dts.countP q := by
  intro dts
  induction dts with
  | nil => intro _; simp
  | cons d rest ih =>
      intro hx
      rw [List.countP_cons, List.countP_cons, List.countP_cons,
        ih (fun d' hd' => hx d' (List.mem_cons_of_mem _ hd'))]
      have hd := hx d (List.mem_cons_self _ _)
      cases hp : p d <;> cases hq : q d <;> simp [hp, hq] at hd ⊢ <;> omega


theorem contains_eq (l : List String) (a : String) : l.contains a = decide (a ∈ l) :=
  List.elem_eq_mem a l

theorem sum_chunkCountSum (stats : IdStats) (dts : List Detail) (k : Key)
    (l : List String) (h : l.Nodup) :
    ((chunksOf 50 l).map (chunkCountSum (apiOf stats) dts k)).sum =
      dts.countP (fun d =>
        (l.filter (fun i => (stats i).isSome)).contains d.id &&
          decide (detailKey d = k)) := by
  refine chunksRec 50 (by omega)
    (P := fun l => l.Nodup →
      ((chunksOf 50 l).map (chunkCountSum (apiOf stats) dts k)).sum =
        dts.countP (fun d =>
          (l.filter (fun i => (stats i).isSome)).contains d.id &&
            decide (detailKey d = k)))
    ?_ (fun l hl ih => ?_) l h
  · intro _
    refine ((List.countP_eq_zero.mpr ?_).symm :
      (0 : Nat) = _)
    intro d _
    simp
  · intro hnod
    rw [chunksOf_cons_eq 50 (by omega) l hl, List.map_cons, List.sum_cons,
      chunkCountSum_apiOf stats dts k _
        (List.Nodup.sublist (List.take_sublist 50 l) hnod),
      ih (List.Nodup.sublist (List.drop_sublist 50 l) hnod)]
    have hsplit : l.filter (fun i => (stats i).isSome) =
        (l.take 50).filter (fun i => (stats i).isSome) ++
          (l.drop 50).filter (fun i => (stats i).isSome) := by
      conv_lhs => rw [← List.take_append_drop 50 l]
      rw [List.filter_append]
    have hdisj : ∀ x : String, x ∈ l.take 50 → x ∈ l.drop 50 → False := by
      intro x hx1 hx2
      have hln : (l.take 50 ++ l.drop 50).Nodup := by
        rw [List.take_append_drop]
        exact hnod
      exact (List.nodup_append.mp hln).2.2 hx1 hx2
    have hR : dts.countP (fun d =>
        (l.filter (fun i => (stats i).isSome)).contains d.id &&
          decide (detailKey d = k)) =
      dts.countP (fun d =>
        (((l.take 50).filter (fun i => (stats i).isSome)).contains d.id &&
          decide (detailKey d = k)) ||
        (((l.drop 50).filter (fun i => (stats i).isSome)).contains d.id &&
          decide (detailKey d = k))) := by
      apply List.countP_congr
      intro d _
      simp only [hsplit, contains_eq, Bool.and_eq_true, Bool.or_eq_true,
        decide_eq_true_eq, List.mem_append]
      tauto
    rw [hR]
    refine (countP_or_exclusive _ _ dts ?_).symm
    intro d _ hcon
    obtain ⟨h1, h2⟩ := hcon
    simp only [contains_eq, Bool.and_eq_true, decide_eq_true_eq,
      List.mem_filter] at h1 h2
    exact hdisj d.id h1.1.1 h2.1.1

theorem find?_id_self (dts : List Detail) (h : (dts.map Detail.id).Nodup) :
    ∀ d ∈ dts, dts.find? (fun d' => d'.id == d.id) = some d := by
  induction dts with
  | nil => intro d hd; exact absurd hd (List.not_mem_nil d)
  | cons x rest ih =>
      intro d hd
      rw [List.map_cons, List.nodup_cons] at h
      cases hbeq : (x.id == d.id) with
      | true =>
          have hid : x.id = d.id := eq_of_beq hbeq
          have hdx : d = x := by
            rcases List.mem_cons.mp hd with h1 | h1
            · exact h1
            · exact absurd (hid ▸ List.mem_map_of_mem Detail.id h1) h.1
          simp only [List.find?_cons, hbeq]
          rw [hdx]
      | false =>
          have hne : d ≠ x := by
            intro hdx
            subst hdx
            simp at hbeq
          have h1 : d ∈ rest := (List.mem_cons.mp hd).resolve_left hne
          simp only [List.find?_cons, hbeq]
          exact ih h.2 d h1

/-- Canonical form of the batched fetch under a per-id statistics oracle,
for inputs with pairwise-distinct ids: each key's entry is the sum of the
per-detail canonical contributions, independent of the chunk decomposition. -/
theorem fetch_apiOf_canon (stats : IdStats) (dts : List Detail)
    (h : (dts.map Detail.id).Nodup) (k : Key) :
    fetch_all_video_stats (apiOf stats) dts k =
      ⟨canonView stats dts k, canonCount stats dts k⟩ := by
  by_cases hemp : dts.isEmpty = true
  · have hnil : dts = [] := by
      cases dts with
      | nil => rfl
      | cons d0 rest => simp at hemp
    subst hnil
    simp [fetch_all_video_stats, canonView, canonCount]
  · have hfe : fetch_all_video_stats (apiOf stats) dts k =
        ⟨(runChunks (apiOf stats) dts (statsRequests dts)).stats k,
         (runChunks (apiOf stats) dts (statsRequests dts)).counts k⟩ := by
      rw [fetch_all_video_stats, if_neg hemp]
    obtain ⟨h1, h2⟩ := runChunks_foldl_apply (apiOf stats) dts k
      (statsRequests dts) ⟨fun _ => 0, fun _ => 0⟩
    have hv : (runChunks (apiOf stats) dts (statsRequests dts)).stats k =
        canonView stats dts k := by
      rw [runChunks, h1]
      show 0 + ((chunksOf 50 (dts.map Detail.id)).map
        (chunkViewSum (apiOf stats) dts k)).sum = _
      rw [Nat.zero_add, sum_chunkViewSum stats dts k _ h, List.map_map]
      unfold canonView
      congr 1
      apply List.map_congr_left
      intro d hdmem
      show idView stats dts k d.id = _
      unfold idView
      cases hsd : stats d.id with
      | none => rfl
      | some vc =>
          rw [find?_id_self dts h d hdmem]
    have hc : (runChunks (apiOf stats) dts (statsRequests dts)).counts k =
        canonCount stats dts k := by
      rw [runChunks, h2]
      show 0 + ((chunksOf 50 (dts.map Detail.id)).map
        (chunkCountSum (apiOf stats) dts k)).sum = _
      rw [Nat.zero_add, sum_chunkCountSum stats dts k _ h]
      apply List.countP_congr
      intro d hdmem
      simp only [contains_eq, Bool.and_eq_true, decide_eq_true_eq,
        List.mem_filter]
      constructor
      · rintro ⟨⟨hmem, hsome⟩, hk⟩
        exact ⟨hsome, hk⟩
      · rintro ⟨hsome, hk⟩
        exact ⟨⟨List.mem_map_of_mem Detail.id hdmem, hsome⟩, hk⟩
    rw [hfe, hv, hc]


/-! ## C8: order-independence of the aggregation -/

/-- C8.  For pairwise-distinct input ids and a fixed per-id statistics
response, `fetch_all_video_stats` is order-independent: permuting the
tagged-id input yields the same `(channel, category) → {viewCountSum,
videoCount}` mapping, so the unspecified completion order of the
concurrent discovery fan-in cannot change the aggregate. -/
theorem fetch_order_independent (stats : IdStats) (dts dts' : List Detail)
    (hperm : dts.Perm dts') (h : (dts.map Detail.id).Nodup) (k : Key) :
    fetch_all_video_stats (apiOf stats) dts k =
      fetch_all_video_stats (apiOf stats) dts' k := by
  have h' : (dts'.map Detail.id).Nodup := (hperm.map Detail.id).nodup h
  rw [fetch_apiOf_canon stats dts h k, fetch_apiOf_canon stats dts' h' k]
  have hv : canonView stats dts k = canonView stats dts' k :=
    List.Perm.sum_eq (hperm.map _)
  have hc : canonCount stats dts k = canonCount stats dts' k :=
    List.Perm.countP_eq _ hperm
  rw [hv, hc]

/-- Witness for C8: two tagged ids in both orders, one of them absent from
the statistics response. -/
theorem fetch_order_independent_witness :
    fetch_all_video_stats
        (apiOf (fun i => if i = "a" then some (some 5) else none))
        [⟨"a", "A", "NORMAL"⟩, ⟨"b", "B", "SHORT"⟩] ("A", "NORMAL") =
      fetch_all_video_stats
        (apiOf (fun i => if i = "a" then some (some 5) else none))
        [⟨"b", "B", "SHORT"⟩, ⟨"a", "A", "NORMAL"⟩] ("A", "NORMAL") ∧
    fetch_all_video_stats
        (apiOf (fun i => if i = "a" then some (some 5) else none))
        [⟨"a", "A", "NORMAL"⟩, ⟨"b", "B", "SHORT"⟩] ("A", "NORMAL") = ⟨5, 1⟩ :=
  ⟨fetch_order_independent (fun i => if i = "a" then some (some 5) else none)
      [⟨"a", "A", "NORMAL"⟩, ⟨"b", "B", "SHORT"⟩]
      [⟨"b", "B", "SHORT"⟩, ⟨"a", "A", "NORMAL"⟩]
      (by decide) (by decide) ("A", "NORMAL"),
   by decide⟩

/-! ## C2: videoCount counts ids confirmed by statistics responses -/

/-- The ids present in the statistics responses of a run: the responses of
the issued chunk requests, flattened (a failed chunk contributes none). -/
def presentIds (api : StatsApi) (dts : List Detail) : List String :=
  (statsRequests dts).flatMap (fun c =>
    match api c with
    | some items => items.map (·.id)
    | none => [])

/-- The number of distinct videoIds tagged with key `k` that are present
in the statistics responses — the quantity C2 says `videoCount` equals. -/
def distinctPresentCount (api : StatsApi) (dts : List Detail) (k : Key) : Nat :=
  (((dts.filter (fun d => decide (detailKey d = k))).map (·.id)).dedup.filter
    (fun i => (presentIds api dts).contains i)).length

/-- Counterexample to C2 as stated: the same id tagged twice with the same
key yields `videoCount = 2`, but only 1 distinct videoId with that key is
present in the responses — the count loop of main.py lines 140-145 counts
input occurrences, not distinct present ids. -/
theorem video_count_counterexample :
    (fetch_all_video_stats
        (apiOf (fun i => if i = "V" then some (some 10) else none))
        [⟨"V", "A", "NORMAL"⟩, ⟨"V", "A", "NORMAL"⟩] ("A", "NORMAL")).video_count = 2 ∧
    distinctPresentCount
        (apiOf (fun i => if i = "V" then some (some 10) else none))
        [⟨"V", "A", "NORMAL"⟩, ⟨"V", "A", "NORMAL"⟩] ("A", "NORMAL") = 1 :=
  ⟨by decide, by decide⟩

theorem presentIds_apiOf (stats : IdStats) (dts : List Detail)
    (h : (dts.map Detail.id).Nodup) :
    presentIds (apiOf stats) dts =
      (dts.map Detail.id).filter (fun i => (stats i).isSome) := by
  show (chunksOf 50 (dts.map Detail.id)).flatMap _ = _
  refine chunksRec 50 (by omega)
    (P := fun l => l.Nodup →
      ((chunksOf 50 l).flatMap (fun c =>
        match apiOf stats c with
        | some items => items.map (·.id)
        | none => []) = l.filter (fun i => (stats i).isSome)))
    (by intro _; rfl) (fun l hl ih => ?_) (dts.map Detail.id) h
  intro hnod
  rw [chunksOf_cons_eq 50 (by omega) l hl, List.flatMap_cons]
  have htake : (match apiOf stats (l.take 50) with
      | some items => items.map StatsItem.id
      | none => ([] : List String)) =
      (l.take 50).filter (fun i => (stats i).isSome) := by
    show ((l.take 50).dedup.filterMap _).map StatsItem.id = _
    rw [List.Nodup.dedup (List.Nodup.sublist (List.take_sublist 50 l) hnod),
      filterMap_map_id]
  rw [htake, ih (List.Nodup.sublist (List.drop_sublist 50 l) hnod),
    ← List.filter_append, List.take_append_drop]

/-- C2, amended.  For inputs whose videoIds are pairwise distinct (the
situation upstream discovery is meant to guarantee; duplicate ids are the
C9 edge case), every key's `videoCount` equals the number of distinct
videoIds tagged with that key present in the statistics responses, and the
view sum gains contributions only from present ids — a video discovered
but omitted from every response contributes nothing to any entry. -/
theorem video_count_amended (stats : IdStats) (dts : List Detail)
    (h : (dts.map Detail.id).Nodup) (k : Key) :
    (fetch_all_video_stats (apiOf stats) dts k).video_count =
      distinctPresentCount (apiOf stats) dts k ∧
    (fetch_all_video_stats (apiOf stats) dts k).view_count =
      canonView stats dts k := by
  rw [fetch_apiOf_canon stats dts h k]
  refine ⟨?_, rfl⟩
  show canonCount stats dts k = distinctPresentCount (apiOf stats) dts k
  unfold distinctPresentCount
  rw [presentIds_apiOf stats dts h]
  have hsub : ((dts.filter (fun d => decide (detailKey d = k))).map (·.id)).Nodup :=
    List.Nodup.sublist (List.Sublist.map _ (List.filter_sublist dts)) h
  rw [List.Nodup.dedup hsub, List.filter_map, List.length_map, List.filter_filter,
    ← List.countP_eq_length_filter]
  apply List.countP_congr
  intro d hd
  have hmem : d.id ∈ dts.map Detail.id := List.mem_map_of_mem Detail.id hd
  simp only [Function.comp, contains_eq, Bool.and_eq_true, decide_eq_true_eq,
    List.mem_filter]
  tauto

/-- Witness for C2's amended theorem: ids `"a"` (present) and `"b"`
(omitted from the response) tagged with the same key — `videoCount` is 1. -/
theorem video_count_amended_witness :
    (fetch_all_video_stats
        (apiOf (fun i => if i = "a" then some (some 10) else none))
        [⟨"a", "A", "NORMAL"⟩, ⟨"b", "A", "NORMAL"⟩] ("A", "NORMAL")).video_count =
      distinctPresentCount
        (apiOf (fun i => if i = "a" then some (some 10) else none))
        [⟨"a", "A", "NORMAL"⟩, ⟨"b", "A", "NORMAL"⟩] ("A", "NORMAL") ∧
    distinctPresentCount
        (apiOf (fun i => if i = "a" then some (some 10) else none))
        [⟨"a", "A", "NORMAL"⟩, ⟨"b", "A", "NORMAL"⟩] ("A", "NORMAL") = 1 :=
  ⟨(video_count_amended (fun i => if i = "a" then some (some 10) else none)
      [⟨"a", "A", "NORMAL"⟩, ⟨"b", "A", "NORMAL"⟩] (by decide) ("A", "NORMAL")).1,
   by decide⟩


/-! ## C9: a duplicated videoId is double-counted only in videoCount -/

/-- Counterexample to C9 as stated: with id `"V"` (10 views) appearing
twice in the input, the entry is `{view_count := 10, video_count := 2}` —
the video count is doubled, but the view count is NOT reflected twice
(the response carries the found id once, and the view loop adds it once,
to the first matching input entry's key). -/
theorem duplicate_id_counterexample :
    fetch_all_video_stats
        (apiOf (fun i => if i = "V" then some (some 10) else none))
        [⟨"V", "A", "NORMAL"⟩, ⟨"V", "A", "NORMAL"⟩] ("A", "NORMAL") = ⟨10, 2⟩ ∧
    (fetch_all_video_stats
        (apiOf (fun i => if i = "V" then some (some 10) else none))
        [⟨"V", "A", "NORMAL"⟩, ⟨"V", "A", "NORMAL"⟩] ("A", "NORMAL")).view_count ≠
      2 * 10 :=
  ⟨by decide, by decide⟩

/-- C9, amended.  A videoId appearing twice in the input is double-counted
in `videoCount` (the count loop walks every input occurrence), while its
view count is added exactly once per response (attributed to the first
matching occurrence's key): the entry for the shared key is
`{view_count := vc, video_count := 2}`, not `{2 * vc, 2}`. -/
theorem duplicate_id_amended (i ch vt : String) (vc : Nat) :
    fetch_all_video_stats
        (apiOf (fun j => if j = i then some (some vc) else none))
        [⟨i, ch, vt⟩, ⟨i, ch, vt⟩] (ch, vt) = ⟨vc, 2⟩ := by
  have hd : ([i, i] : List String).dedup = [i] := by
    rw [List.dedup_cons_of_mem (by simp [List.mem_dedup]),
      List.dedup_cons_of_not_mem (by simp)]
    rfl
  have hapi : apiOf (fun j => if j = i then some (some vc) else none) [i, i] =
      some [⟨i, some vc⟩] := by
    show some (([i, i] : List String).dedup.filterMap _) = _
    rw [hd]
    simp [List.filterMap_cons]
  have hreq : statsRequests [⟨i, ch, vt⟩, ⟨i, ch, vt⟩] = [[i, i]] := rfl
  have hfind : ([⟨i, ch, vt⟩, ⟨i, ch, vt⟩] : List Detail).find?
      (fun d => d.id == i) = some ⟨i, ch, vt⟩ := by
    simp [List.find?_cons]
  obtain ⟨h1, h2⟩ := runChunks_foldl_apply
    (apiOf (fun j => if j = i then some (some vc) else none))
    [⟨i, ch, vt⟩, ⟨i, ch, vt⟩] (ch, vt) [[i, i]] ⟨fun _ => 0, fun _ => 0⟩
  have hview : chunkViewSum
      (apiOf (fun j => if j = i then some (some vc) else none))
      [⟨i, ch, vt⟩, ⟨i, ch, vt⟩] (ch, vt) [i, i] = vc := by
    show (match apiOf (fun j => if j = i then some (some vc) else none) [i, i] with
      | none => 0
      | some items => (items.map
          (itemView [⟨i, ch, vt⟩, ⟨i, ch, vt⟩] (ch, vt))).sum) = vc
    rw [hapi]
    show itemView [⟨i, ch, vt⟩, ⟨i, ch, vt⟩] (ch, vt) ⟨i, some vc⟩ + 0 = vc
    show (match ([⟨i, ch, vt⟩, ⟨i, ch, vt⟩] : List Detail).find?
        (fun d => d.id == i) with
      | some d => if detailKey d = (ch, vt) then (some vc).getD 0 else 0
      | none => 0) + 0 = vc
    rw [hfind]
    show (if (ch, vt) = (ch, vt) then vc else 0) + 0 = vc
    rw [if_pos rfl]
    rfl
  have hcount : chunkCountSum
      (apiOf (fun j => if j = i then some (some vc) else none))
      [⟨i, ch, vt⟩, ⟨i, ch, vt⟩] (ch, vt) [i, i] = 2 := by
    show (match apiOf (fun j => if j = i then some (some vc) else none) [i, i] with
      | none => 0
      | some items => ([⟨i, ch, vt⟩, ⟨i, ch, vt⟩] : List Detail).countP
          (fun d => (items.map (·.id)).contains d.id &&
            decide (detailKey d = (ch, vt)))) = 2
    rw [hapi]
    show ([⟨i, ch, vt⟩, ⟨i, ch, vt⟩] : List Detail).countP
      (fun d => ([i] : List String).contains d.id &&
        decide (detailKey d = (ch, vt))) = 2
    rw [List.countP_cons, List.countP_cons]
    simp [detailKey]
  have hfe : fetch_all_video_stats
      (apiOf (fun j => if j = i then some (some vc) else none))
      [⟨i, ch, vt⟩, ⟨i, ch, vt⟩] (ch, vt) =
      ⟨(runChunks (apiOf (fun j => if j = i then some (some vc) else none))
          [⟨i, ch, vt⟩, ⟨i, ch, vt⟩] [[i, i]]).stats (ch, vt),
       (runChunks (apiOf (fun j => if j = i then some (some vc) else none))
          [⟨i, ch, vt⟩, ⟨i, ch, vt⟩] [[i, i]]).counts (ch, vt)⟩ := by
    rw [fetch_all_video_stats, if_neg (by simp), ← hreq]
  rw [hfe, runChunks, h1, h2, List.map_cons, List.map_nil, List.sum_cons,
    List.sum_nil, List.map_cons, List.map_nil, List.sum_cons, List.sum_nil,
    hview, hcount]
  simp

/-! ## C10: a present video lacking the viewCount field -/

theorem countP_flip_one (p q : Detail → Bool) (d : Detail) :
    ∀ l : List Detail, l.Nodup → d ∈ l → p d = true → q d = false →
      (∀ d' ∈ l, d' ≠ d → p d' = q d') → l.countP p = l.countP q + 1 := by
  intro l
  induction l with
  | nil => intro _ hd; cases hd
  | cons x rest ih =>
      intro hnod hd hp hq hagree
      rw [List.countP_cons, List.countP_cons]
      rw [List.nodup_cons] at hnod
      rcases List.mem_cons.mp hd with h1 | h1
      · have hx : x = d := h1.symm
        subst hx
        have hrest : rest.countP p = rest.countP q := by
          apply List.countP_congr
          intro d' hd'
          rw [hagree d' (List.mem_cons_of_mem _ hd')
            (fun he => hnod.1 (he ▸ hd'))]
        rw [hrest, hp, hq, if_pos rfl, if_neg Bool.false_ne_true]
      · have hxd : x ≠ d := fun he => hnod.1 (he ▸ h1)
        rw [hagree x (List.mem_cons_self _ _) hxd,
          ih hnod.2 h1 hp hq (fun d' hd' => hagree d' (List.mem_cons_of_mem _ hd'))]
        omega

/-- C10.  A video present in a statistics response whose statistics object
lacks the `viewCount` field is treated as having 0 views: relative to a run
in which the platform omits that id entirely, its key's entry keeps the
same view sum but gains exactly one video count — the video lowers the
derived per-video average instead of being dropped. -/
theorem missing_viewcount_counted (stats : IdStats) (dts : List Detail) (d : Detail)
    (h : (dts.map Detail.id).Nodup) (hd : d ∈ dts) (hmiss : stats d.id = some none) :
    fetch_all_video_stats (apiOf stats) dts (detailKey d) =
      ⟨(fetch_all_video_stats (apiOf (fun j => if j = d.id then none else stats j))
          dts (detailKey d)).view_count,
       (fetch_all_video_stats (apiOf (fun j => if j = d.id then none else stats j))
          dts (detailKey d)).video_count + 1⟩ := by
  rw [fetch_apiOf_canon stats dts h (detailKey d),
    fetch_apiOf_canon (fun j => if j = d.id then none else stats j) dts h (detailKey d)]
  have hid_inj : ∀ d' ∈ dts, d'.id = d.id → d' = d := by
    intro d' hd' he
    have f1 := find?_id_self dts h d' hd'
    have f2 := find?_id_self dts h d hd
    rw [he] at f1
    rw [f1] at f2
    exact Option.some.inj f2
  have hview : canonView stats dts (detailKey d) =
      canonView (fun j => if j = d.id then none else stats j) dts (detailKey d) := by
    unfold canonView
    congr 1
    apply List.map_congr_left
    intro d' hd'
    by_cases hide : d'.id = d.id
    · have hdd : d' = d := hid_inj d' hd' hide
      subst hdd
      rw [hmiss, show (fun j => if j = d'.id then none
        else stats j) d'.id = (none : Option (Option Nat)) from by simp]
      show (if detailKey d' = detailKey d' then (none : Option Nat).getD 0 else 0) = 0
      rw [if_pos rfl]
      rfl
    · rw [show (fun j => if j = d.id then none else stats j) d'.id = stats d'.id
        from by simp [hide]]
  have hcount : canonCount stats dts (detailKey d) =
      canonCount (fun j => if j = d.id then none else stats j) dts (detailKey d) + 1 := by
    unfold canonCount
    refine countP_flip_one _ _ d dts (List.Nodup.of_map _ h) hd ?_ ?_ ?_
    · simp [hmiss]
    · simp
    · intro d' hd' hne
      have hide : d'.id ≠ d.id := fun he => hne (hid_inj d' hd' he)
      rw [show (fun j => if j = d.id then none else stats j) d'.id = stats d'.id
        from by simp [hide]]
  rw [hview, hcount]

/-- Witness for C10: id `"a"` present with its `viewCount` field missing
next to id `"b"` with 7 views — the key's entry is `{7, 2}`, against
`{7, 1}` when the platform omits `"a"` entirely. -/
theorem missing_viewcount_counted_witness :
    fetch_all_video_stats
        (apiOf (fun j => if j = "a" then some none
          else if j = "b" then some (some 7) else none))
        [⟨"a", "A", "NORMAL"⟩, ⟨"b", "A", "NORMAL"⟩] ("A", "NORMAL") =
      ⟨(fetch_all_video_stats
          (apiOf (fun j => if j = "a" then none
            else if j = "a" then some none
            else if j = "b" then some (some 7) else none))
          [⟨"a", "A", "NORMAL"⟩, ⟨"b", "A", "NORMAL"⟩] ("A", "NORMAL")).view_count,
       (fetch_all_video_stats
          (apiOf (fun j => if j = "a" then none
            else if j = "a" then some none
            else if j = "b" then some (some 7) else none))
          [⟨"a", "A", "NORMAL"⟩, ⟨"b", "A", "NORMAL"⟩] ("A", "NORMAL")).video_count + 1⟩ ∧
    fetch_all_video_stats
        (apiOf (fun j => if j = "a" then some none
          else if j = "b" then some (some 7) else none))
        [⟨"a", "A", "NORMAL"⟩, ⟨"b", "A", "NORMAL"⟩] ("A", "NORMAL") = ⟨7, 2⟩ :=
  ⟨missing_viewcount_counted
      (fun j => if j = "a" then some none
        else if j = "b" then some (some 7) else none)
      [⟨"a", "A", "NORMAL"⟩, ⟨"b", "A", "NORMAL"⟩] ⟨"a", "A", "NORMAL"⟩
      (by decide) (by decide) (by decide),
   by decide⟩

end YTA
